import Mathlib

/-!
Verification of the no2amaranth repository: Amaranth/nMigen wrappers for the
Nitro FPGA muacm USB CDC-ACM core, plus two reference loopback designs.

The definitions below are a shallow embedding of:
  * src/src/no2amaranth/amaranth.py
      - NitroMuAcmSync.gen_customized_ip   (customization / temp-file preparation)
      - NitroMuAcmXClk.elaborate           (cross-clock handshake registers)
      - NitroMuAcmBuffered.__init__ / .elaborate (constructor, FIFO packing)
  * src/examples/amaranth_icebreaker_bitsy_muacm.py and
    src/examples/nmigen_icebreaker_muacm.py
      - the power-on-reset counter, the sticky warm-boot flag, and the
        buffered-wrapper instantiations.
Machine integers are modelled as Nat with explicit reduction modulo 2^w where
the hardware truncates.
-/

set_option autoImplicit false

namespace No2Amaranth

/-! ### Power-on-reset counter

Embedding of (both example designs, identical lines):
  por_count = Signal(8)
  m.d.comb += por_rst.eq(~por_count[-1])
  m.d.por  += por_count.eq(por_count + ~por_count[-1])
The counter is 8 bits wide, so the sum is truncated modulo 256; `por_count[-1]`
is the top bit (bit 7) and `~` complements that single bit. -/

/-- Top bit (bit 7) of the 8-bit `por_count` register value. -/
def porTop (c : Nat) : Nat := c / 128 % 2

/-- One `por`-domain clock cycle of the counter:
`por_count.eq(por_count + ~por_count[-1])`, truncated to 8 bits. -/
def porStep (c : Nat) : Nat := (c + (1 - porTop c)) % 256

/-- `por_count` after `n` cycles, started from its reset value 0 with the
`por` domain's own reset released. -/
def por_count : Nat → Nat
  | 0 => 0
  | n + 1 => porStep (por_count n)

/-- Combinational reset output: `por_rst.eq(~por_count[-1])`. -/
def por_rst (c : Nat) : Bool := decide (porTop c = 0)

/-! ### Sticky warm-boot flag (Bitsy design)

Embedding of src/examples/amaranth_icebreaker_bitsy_muacm.py lines 82-89:
  reboot = Signal()
  m.d.sync += reboot.eq(reboot | muacm.bootloader_req)
  Instance("SB_WARMBOOT", i_S1 = 0, i_S0 = 1, i_BOOT = reboot)
`req n` is the value of `muacm.bootloader_req` during cycle `n` of the
free-running (`sync`) domain. -/

/-- The `reboot` register after `n` cycles of the `sync` domain (reset value 0). -/
def reboot (req : Nat → Bool) : Nat → Bool
  | 0 => false
  | n + 1 => reboot req n || req n

/-- Port bindings of the `SB_WARMBOOT` hard primitive. -/
structure SBWarmboot where
  s1 : Nat
  s0 : Nat
  boot : Bool
deriving DecidableEq

/-- The `SB_WARMBOOT` instance of the Bitsy design at cycle `n`:
`i_S1 = 0, i_S0 = 1, i_BOOT = reboot`. -/
def warmbootInst (req : Nat → Bool) (n : Nat) : SBWarmboot :=
  { s1 := 0, s0 := 1, boot := reboot req n }

/-! ### 9-bit FIFO word packing (NitroMuAcmBuffered.elaborate)

Embedding of src/src/no2amaranth/amaranth.py lines 330-331 / 340-341 (the same
wiring on the ingress `fifo_in` and the egress `fifo_out`):
  fin.w_data[0:8].eq(self.in_data)
  fin.w_data[8].eq(self.in_last)
and the read side, lines 335-336 / 345-346:
  core.in_data.eq(fin.r_data[0:8])
  core.in_last.eq(fin.r_data[8])
-/

/-- The 9-bit FIFO word: low 8 bits carry the data byte, bit 8 the last flag. -/
def fifoPack (d : Nat) (l : Bool) : Nat := d % 256 + 256 * (if l then 1 else 0)

/-- Data byte recovered from a 9-bit FIFO word (`r_data[0:8]`). -/
def fifoUnpackData (w : Nat) : Nat := w % 256

/-- Last flag recovered from a 9-bit FIFO word (`r_data[8]`). -/
def fifoUnpackLast (w : Nat) : Bool := decide (w / 256 % 2 = 1)

/-! ### Customization step (NitroMuAcmSync.gen_customized_ip)

Embedding of src/src/no2amaranth/amaranth.py lines 107-144.  Keyword arguments
are a Python mapping from names to values; `kwargs.get(k)` yields `None` for an
absent key. -/

/-- A Python value as far as the customization step inspects it. -/
inductive PyVal
  | pynone
  | pyint (n : Int)
  | pystr (s : String)
  | pybool (b : Bool)
deriving DecidableEq

/-- Python truthiness, as used by `bool(kwargs.get('no_dfu_rt'))`. -/
def pyTruthy : PyVal → Bool
  | .pynone => false
  | .pyint n => decide (n ≠ 0)
  | .pystr s => !s.isEmpty
  | .pybool b => b

/-- A `**kwargs` mapping (keys are unique in a Python dict; lookup takes the
first binding). -/
def KwArgs := List (String × PyVal)

/-- `kwargs.get(k)`: the bound value, or `None` when the key is absent. -/
def kwGet (kw : KwArgs) (k : String) : PyVal :=
  match kw.find? (fun p => p.1 == k) with
  | some p => p.2
  | none => .pynone

/-- Modelled from the spec: the vendored `MuAcmPatcher` (shipped beside the
muacm core source, outside this repository) holds the core source text and
offers exactly the six substitution operations `set_vid`, `set_pid`,
`set_vendor`, `set_product`, `set_serial`, `disable_dfu_rt`; each replaces only
its own descriptor field.  A field that is `none` (resp. `false`) still holds
its pre-patch vendored default. -/
structure MuAcmPatcher where
  vid : Option PyVal := none
  pid : Option PyVal := none
  vendor : Option PyVal := none
  product : Option PyVal := none
  serial : Option PyVal := none
  dfu_rt_disabled : Bool := false
deriving DecidableEq

/-- Modelled from the spec: `MuAcmPatcher().load(...)` yields the core source
with every descriptor field at its vendored default. -/
def MuAcmPatcher.load : MuAcmPatcher := {}

def MuAcmPatcher.set_vid (sf : MuAcmPatcher) (v : PyVal) : MuAcmPatcher :=
  { sf with vid := some v }

def MuAcmPatcher.set_pid (sf : MuAcmPatcher) (v : PyVal) : MuAcmPatcher :=
  { sf with pid := some v }

def MuAcmPatcher.set_vendor (sf : MuAcmPatcher) (v : PyVal) : MuAcmPatcher :=
  { sf with vendor := some v }

def MuAcmPatcher.set_product (sf : MuAcmPatcher) (v : PyVal) : MuAcmPatcher :=
  { sf with product := some v }

def MuAcmPatcher.set_serial (sf : MuAcmPatcher) (v : PyVal) : MuAcmPatcher :=
  { sf with serial := some v }

def MuAcmPatcher.disable_dfu_rt (sf : MuAcmPatcher) : MuAcmPatcher :=
  { sf with dfu_rt_disabled := true }

/-- The observable side effects of `gen_customized_ip`, in program order. -/
inductive PrepEffect
  | loadPatcherModule
  | loadSource
  | saveTemp (file : Nat)
deriving DecidableEq

/-- A constructed `NitroMuAcmSync` instance: the patched core source, the
retained temporary-file handle (`self.ip_file`, identified by the fresh name
the OS hands out), and the preparation effects that construction performed. -/
structure SyncInst where
  params : MuAcmPatcher
  ip_file : Nat
  prep : List PrepEffect
deriving DecidableEq

/-- Embedding of `NitroMuAcmSync.gen_customized_ip` (lines 107-144): load the
patcher module, load the core source, apply each of the six customizations iff
its keyword is supplied (non-`None`; truthy for `no_dfu_rt`), then write the
result to a fresh named temporary file whose handle is kept on the instance.
`fresh` is the name the OS allocates for `tempfile.NamedTemporaryFile`. -/
def gen_customized_ip (fresh : Nat) (kw : KwArgs) : SyncInst :=
  let sf0 := MuAcmPatcher.load
  let sf1 := if kwGet kw "vid" ≠ PyVal.pynone then sf0.set_vid (kwGet kw "vid") else sf0
  let sf2 := if kwGet kw "pid" ≠ PyVal.pynone then sf1.set_pid (kwGet kw "pid") else sf1
  let sf3 := if kwGet kw "vendor" ≠ PyVal.pynone then sf2.set_vendor (kwGet kw "vendor") else sf2
  let sf4 := if kwGet kw "product" ≠ PyVal.pynone then sf3.set_product (kwGet kw "product") else sf3
  let sf5 := if kwGet kw "serial" ≠ PyVal.pynone then sf4.set_serial (kwGet kw "serial") else sf4
  let sf6 := if pyTruthy (kwGet kw "no_dfu_rt") then sf5.disable_dfu_rt else sf5
  { params := sf6
    ip_file := fresh
    prep := [.loadPatcherModule, .loadSource, .saveTemp fresh] }

/-- Embedding of `NitroMuAcmSync.__init__`: creates the interface signals,
saves the pads and runs `gen_customized_ip(**kwargs)`. -/
def NitroMuAcmSync.mk (fresh : Nat) (kw : KwArgs) : SyncInst :=
  gen_customized_ip fresh kw

/-- Embedding of `NitroMuAcmAsync.__init__`: owns exactly one customized
synchronous core, built with the same keyword arguments. -/
structure AsyncInst where
  core : SyncInst
deriving DecidableEq

def NitroMuAcmAsync.mk (fresh : Nat) (kw : KwArgs) : AsyncInst :=
  { core := NitroMuAcmSync.mk fresh kw }

/-- The single inner wrapper a `NitroMuAcmBuffered` owns. -/
inductive InnerCore
  | syncCore (c : SyncInst)
  | asyncCore (c : AsyncInst)
deriving DecidableEq

/-- The customized synchronous core at the bottom of either composition. -/
def InnerCore.innerSync : InnerCore → SyncInst
  | .syncCore c => c
  | .asyncCore a => a.core

/-- A constructed `NitroMuAcmBuffered` instance. -/
structure BufferedInst where
  fifo_depth : Nat
  core : InnerCore
deriving DecidableEq

/-- Embedding of `NitroMuAcmBuffered.__init__(self, pads, sync=False,
fifo_depth=4, **kwargs)` (lines 292-315): records the FIFO depth and creates
exactly one inner wrapper, synchronous iff `sync`, forwarding `kwargs`. -/
def NitroMuAcmBuffered.mk (fresh : Nat) (kw : KwArgs) (sync : Bool := false)
    (fifo_depth : Nat := 4) : BufferedInst :=
  { fifo_depth := fifo_depth
    core := if sync then .syncCore (NitroMuAcmSync.mk fresh kw)
            else .asyncCore (NitroMuAcmAsync.mk fresh kw) }

/-- Embedding of src/examples/nmigen_icebreaker_muacm.py line 71:
`no2nmigen.NitroMuAcmBuffered(usb_pads, fifo_depth=256)` — no `sync` argument
(default `False`), `fifo_depth=256` passed explicitly, and no customization
keywords.  The generation-B (nMigen) binding is not shipped under src/; per
spec section 4.7 it mirrors the generation-A constructor embedded above, so the
same constructor model is used. -/
def icebreakerMuacm (fresh : Nat) : BufferedInst :=
  NitroMuAcmBuffered.mk fresh [] false 256

/-- Embedding of src/examples/amaranth_icebreaker_bitsy_muacm.py line 71:
`NitroMuAcmBuffered(usb_pads, fifo_depth=256, product="bitsy")`. -/
def bitsyMuacm (fresh : Nat) : BufferedInst :=
  NitroMuAcmBuffered.mk fresh [("product", PyVal.pystr "bitsy")] false 256

/-- The keyword names `gen_customized_ip` actually inspects. -/
def recognizedKeys : List String :=
  ["vid", "pid", "vendor", "product", "serial", "no_dfu_rt"]

/-- One `NitroMuAcmSync` per element of `kws`, each constructed with its own
fresh temporary-file name (the OS hands out a distinct name per
`tempfile.NamedTemporaryFile` call, here numbered in construction order
starting at `i`). -/
def mkSyncInstancesFrom (i : Nat) : List KwArgs → List SyncInst
  | [] => []
  | kw :: kws => NitroMuAcmSync.mk i kw :: mkSyncInstancesFrom (i + 1) kws

/-- A batch of wrapper instances with distinct fresh temporary files. -/
def mkSyncInstances (kws : List KwArgs) : List SyncInst :=
  mkSyncInstancesFrom 0 kws

/-! ### Cross-clock adapter registers (NitroMuAcmXClk.elaborate)

Embedding of src/src/no2amaranth/amaranth.py lines 180-211.  The producer
(`in_`) domain registers are `send_in`, `ack_sync_in[0]`, `ack_sync_in[1]` and
the registered `in_ready`; the consumer (`out`) domain registers are
`send_sync_out[0]`, `send_sync_out[1]`, the registered `out_valid` and
`ack_out`.  All right-hand sides read the pre-edge register values. -/

/-- Producer-domain registers of `NitroMuAcmXClk`. -/
structure XClkInSt where
  send : Bool
  ack0 : Bool
  ack1 : Bool
  rdy : Bool
deriving DecidableEq

/-- Consumer-domain registers of `NitroMuAcmXClk`. -/
structure XClkOutSt where
  ss0 : Bool
  ss1 : Bool
  oval : Bool
  ack : Bool
deriving DecidableEq

/-- One `in_`-domain clock edge.  `v` is the `in_valid` input wire and `a` the
(asynchronously sampled) `ack_out` register of the consumer domain:
  send_in.eq( (send_in | (in_valid & ~in_ready)) & ~ack_sync_in[0] )
  ack_sync_in[1].eq( ack_sync_in[0] )
  ack_sync_in[0].eq( ack_out )
  in_ready.eq( ack_sync_in[0] & ~ack_sync_in[1] ) -/
def xclkInStep (s : XClkInSt) (v a : Bool) : XClkInSt :=
  { send := (s.send || (v && !s.rdy)) && !s.ack0
    ack0 := a
    ack1 := s.ack0
    rdy := s.ack0 && !s.ack1 }

/-- One `out`-domain clock edge.  `snd` is the (asynchronously sampled)
`send_in` register of the producer domain and `r` the `out_ready` input wire:
  send_sync_out[1].eq( send_sync_out[0] )
  send_sync_out[0].eq( send_in )
  out_valid.eq( (out_valid & ~out_ready) | (send_sync_out[0] & ~send_sync_out[1]) )
  ack_out.eq( (ack_out & send_sync_out[0]) | (out_valid & out_ready) ) -/
def xclkOutStep (o : XClkOutSt) (snd r : Bool) : XClkOutSt :=
  { ss0 := snd
    ss1 := o.ss0
    oval := (o.oval && !r) || (o.ss0 && !o.ss1)
    ack := (o.ack && o.ss0) || (o.oval && r) }

/-- Combinational data forwarding: `self.out_data.eq(self.in_data)`. -/
def xclkOutData (inData : Nat) : Nat := inData

/-- Combinational last forwarding: `self.out_last.eq(self.in_last)`. -/
def xclkOutLast (inLast : Bool) : Bool := inLast

/-! ### Closed-loop cross-clock system

The adapter together with a producer driving a fixed finite sequence of beats
and a consumer, under arbitrary interleaving of the two clock domains and
arbitrary per-cycle stalling.  A beat is the `(data, last)` pair carried by the
combinationally forwarded wires. -/

/-- One `(data, last)` byte-stream beat. -/
def Beat := Nat × Bool
deriving DecidableEq, Inhabited

/-- Global state: adapter registers, the producer's currently driven
`in_valid`, the beats not yet accepted at the input interface (its head is the
beat presently driven on `in_data`/`in_last` whenever `vld` is high), and the
beats delivered so far at the output interface. -/
structure XClkSys where
  xin : XClkInSt
  xout : XClkOutSt
  vld : Bool
  pend : List Beat
  outd : List Beat
deriving DecidableEq

/-- The beat the producer drives on the data wires while `vld` is high. -/
def XClkSys.presented (s : XClkSys) : Beat := s.pend.headD (0, false)

/-- One scheduler event: a clock edge of the producer domain (with the
`in_valid` value the producer will drive next) or of the consumer domain (with
the `out_ready` value driven that cycle and the value then present on the
combinational data wires). -/
inductive XClkCmd
  | inTick (nextVld : Bool)
  | outTick (ready : Bool) (wire : Beat)
deriving DecidableEq

/-- Handshake contract on one event.  While a transfer is pending (`vld` high,
transfer not yet completed) the producer keeps `in_valid` asserted and the data
wires stable, so on a consumer edge the wires carry the presented beat; a newly
asserted `in_valid` requires a beat to present. -/
def xclkCmdOk (s : XClkSys) : XClkCmd → Bool
  | .inTick v =>
      if s.vld then
        if s.xin.rdy then !v || !s.pend.tail.isEmpty
        else v
      else !v || !s.pend.isEmpty
  | .outTick _ w =>
      !s.vld || decide (w = s.presented)

/-- Effect of one event.  An input transfer completes on a producer edge with
`in_valid` and `in_ready` both high (the accepted beat leaves `pend`); an
output transfer completes on a consumer edge with `out_valid` and `out_ready`
both high (the wire value joins `outd`). -/
def xclkStepSys (s : XClkSys) : XClkCmd → XClkSys
  | .inTick v =>
      { s with
        xin := xclkInStep s.xin s.vld s.xout.ack
        vld := v
        pend := if s.vld && s.xin.rdy then s.pend.tail else s.pend }
  | .outTick r w =>
      { s with
        xout := xclkOutStep s.xout s.xin.send r
        outd := if s.xout.oval && r then s.outd ++ [w] else s.outd }

/-- Power-on state: all registers reset, the whole sequence `L` still to send. -/
def xclkStart (L : List Beat) : XClkSys :=
  { xin := ⟨false, false, false, false⟩
    xout := ⟨false, false, false, false⟩
    vld := false
    pend := L
    outd := [] }

/-- Run a finite schedule of events. -/
def xclkRun (s : XClkSys) : List XClkCmd → XClkSys
  | [] => s
  | c :: cs => xclkRun (xclkStepSys s c) cs

/-- The whole schedule respects the handshake contract. -/
def xclkOkRun (s : XClkSys) : List XClkCmd → Bool
  | [] => true
  | c :: cs => xclkCmdOk s c && xclkOkRun (xclkStepSys s c) cs

/-! ### Small FIFO model (NitroMuAcmBuffered.elaborate)

`SyncFIFOBuffered` is an Amaranth library primitive, not repository code.
Modelled from the spec: a first-in-first-out word queue of the configured
depth; `w_rdy` iff it has capacity, `r_rdy` iff it is non-empty, `r_data` is
the oldest word; a word is enqueued on a cycle with `w_en & w_rdy` and the
oldest word dequeued on a cycle with `r_en & r_rdy`.  `pushed`/`popped` record
the words written and read, in order, for stating conservation. -/

/-- Port drive of one FIFO clock cycle. -/
structure FifoOp where
  wEn : Bool
  wData : Nat
  rEn : Bool
deriving DecidableEq

/-- FIFO state plus the histories of written and read words. -/
structure FifoSt where
  q : List Nat
  pushed : List Nat
  popped : List Nat
deriving DecidableEq

/-- One clock cycle of the FIFO. -/
def fifoStep (depth : Nat) (s : FifoSt) (op : FifoOp) : FifoSt :=
  let doW := op.wEn && decide (s.q.length < depth)
  let doR := op.rEn && !s.q.isEmpty
  { q := (if doR then s.q.tail else s.q) ++ (if doW then [op.wData] else [])
    pushed := s.pushed ++ (if doW then [op.wData] else [])
    popped := s.popped ++ (if doR then [s.q.headD 0] else []) }

/-- Run the FIFO from empty over a list of port drives. -/
def fifoRun (depth : Nat) (ops : List FifoOp) : FifoSt :=
  ops.foldl (fifoStep depth) ⟨[], [], []⟩

/-- The `(data, last)` beats carried by a list of 9-bit FIFO words, as the
buffered wrapper's read-side wiring recovers them. -/
def beatsOfWords (ws : List Nat) : List Beat :=
  ws.map (fun w => (fifoUnpackData w, fifoUnpackLast w))

/-- A one-beat demonstration sequence for the cross-clock system. -/
def xclkDemoBeats : List Beat := [(5, true)]

/-- A schedule delivering `xclkDemoBeats` end to end: the producer asserts
valid, the send flag crosses, the consumer accepts on the third consumer
edge, and the acknowledgment completes the input-side transfer. -/
def xclkDemoCmds : List XClkCmd :=
  [.inTick true, .inTick true, .outTick false (5, true), .outTick false (5, true),
   .outTick true (5, true), .inTick true, .inTick true, .inTick false]

/-! ### Reachability invariant of the cross-clock system -/

/-- Register/phase configuration of the cross-clock handshake. -/
def phaseRegs (s : XClkSys) (se a0 a1 rd s0 s1 ov ak : Bool) : Prop :=
  s.xin = ⟨se, a0, a1, rd⟩ ∧ s.xout = ⟨s0, s1, ov, ak⟩

/-- Producer contract bookkeeping: a held `in_valid` presents an existing beat. -/
def vldOk (s : XClkSys) : Prop := s.vld = true → s.pend ≠ []

/-- Outside a delivery overlap, the delivered and pending beats partition the
driven sequence. -/
def relN (L : List Beat) (s : XClkSys) : Prop := s.outd ++ s.pend = L

/-- During a delivery overlap (the beat has reached the output, the input-side
transfer has not yet completed) the head of `pend` is the beat just
delivered. -/
def relD (L : List Beat) (s : XClkSys) : Prop :=
  s.pend ≠ [] ∧ s.outd ++ s.pend.tail = L

/-- Reachability invariant of the closed-loop cross-clock system: the
four-phase handshake only ever visits these thirteen register configurations
(idle / ack-sync drain tail; send raised; send seen by one, then both
consumer synchronizer stages; output transferred and acknowledgment raised;
acknowledgment synchronizing back; producer ready pulse; ack/send falling
edges draining), and in each of them the delivered and pending lists
partition the driven sequence with at most a one-beat overlap. -/
def XInv (L : List Beat) (s : XClkSys) : Prop :=
  (phaseRegs s false false false false false false false false ∧ vldOk s ∧ relN L s) ∨
  (phaseRegs s false false true false false false false false ∧ vldOk s ∧ relN L s) ∨
  (phaseRegs s true false false false false false false false ∧
    s.vld = true ∧ s.pend ≠ [] ∧ relN L s) ∨
  (phaseRegs s true false false false true false false false ∧
    s.vld = true ∧ s.pend ≠ [] ∧ relN L s) ∨
  (phaseRegs s true false false false true true true false ∧
    s.vld = true ∧ s.pend ≠ [] ∧ relN L s) ∨
  (phaseRegs s true false false false true true false true ∧ s.vld = true ∧ relD L s) ∨
  (phaseRegs s true true false false true true false true ∧ s.vld = true ∧ relD L s) ∨
  (phaseRegs s false true true true true true false true ∧ s.vld = true ∧ relD L s) ∨
  (phaseRegs s false true true true false true false true ∧ s.vld = true ∧ relD L s) ∨
  (phaseRegs s false true true true false false false false ∧ s.vld = true ∧ relD L s) ∨
  (phaseRegs s false true true false true true false true ∧ vldOk s ∧ relN L s) ∨
  (phaseRegs s false true true false false true false true ∧ vldOk s ∧ relN L s) ∨
  (phaseRegs s false true true false false false false false ∧ vldOk s ∧ relN L s)

/-! ## Helper lemmas -/

/-- Closed form of the power-on-reset counter: it counts 0, 1, ..., 127, 128
and then stays at 128. -/
lemma por_count_closed (n : Nat) : por_count n = min n 128 := by
  induction n with
  | zero => rfl
  | succ n ih =>
    rcases Nat.lt_or_ge n 128 with h | h
    · have h1 : por_count n = n := by rw [ih]; omega
      have htop : porTop n = 0 := by unfold porTop; omega
      show porStep (por_count n) = _
      rw [h1]
      unfold porStep
      rw [htop]
      omega
    · have h1 : por_count n = 128 := by rw [ih]; omega
      show porStep (por_count n) = _
      rw [h1]
      have h2 : porStep 128 = 128 := by decide
      rw [h2]
      omega

/-- The sticky `reboot` flag is set exactly when some earlier cycle carried a
bootloader-request pulse. -/
lemma reboot_iff (req : Nat → Bool) (n : Nat) :
    reboot req n = true ↔ ∃ k, k < n ∧ req k = true := by
  induction n with
  | zero =>
    simp [reboot]
  | succ n ih =>
    unfold reboot
    rw [Bool.or_eq_true, ih]
    constructor
    · rintro (⟨k, hk, hr⟩ | hr)
      · exact ⟨k, by omega, hr⟩
      · exact ⟨n, by omega, hr⟩
    · rintro ⟨k, hk, hr⟩
      rcases Nat.lt_or_ge k n with h | h
      · exact Or.inl ⟨k, h, hr⟩
      · have : k = n := by omega
        exact Or.inr (this ▸ hr)

/-- Normal form of the customization step: each descriptor field is patched
iff its keyword is supplied, independently of the others. -/
lemma gen_customized_ip_eq (fresh : Nat) (kw : KwArgs) :
    gen_customized_ip fresh kw =
      { params :=
          { vid := if kwGet kw "vid" ≠ PyVal.pynone then some (kwGet kw "vid") else none
            pid := if kwGet kw "pid" ≠ PyVal.pynone then some (kwGet kw "pid") else none
            vendor := if kwGet kw "vendor" ≠ PyVal.pynone then some (kwGet kw "vendor") else none
            product := if kwGet kw "product" ≠ PyVal.pynone then some (kwGet kw "product") else none
            serial := if kwGet kw "serial" ≠ PyVal.pynone then some (kwGet kw "serial") else none
            dfu_rt_disabled := pyTruthy (kwGet kw "no_dfu_rt") }
        ip_file := fresh
        prep := [.loadPatcherModule, .loadSource, .saveTemp fresh] } := by
  simp only [gen_customized_ip]
  split_ifs <;>
    simp_all [MuAcmPatcher.load, MuAcmPatcher.set_vid, MuAcmPatcher.set_pid,
      MuAcmPatcher.set_vendor, MuAcmPatcher.set_product, MuAcmPatcher.set_serial,
      MuAcmPatcher.disable_dfu_rt]

/-- Looking a key up past an unrelated binding. -/
lemma kwGet_cons_ne (k key : String) (v : PyVal) (kw : KwArgs) (h : k ≠ key) :
    kwGet ((k, v) :: kw) key = kwGet kw key := by
  unfold kwGet
  rw [show ((k, v) :: kw : List (String × PyVal)).find? (fun p => p.1 == key) =
      kw.find? (fun p => p.1 == key) from by
    rw [List.find?_cons_of_neg]
    simpa using h]

/-- The batch constructor hands instance `j` the fresh file `i + j` and patches
it from its own keyword set alone. -/
lemma mkSyncInstancesFrom_spec (kws : List KwArgs) (i : Nat) :
    (mkSyncInstancesFrom i kws).map (fun c => c.ip_file) = List.range' i kws.length ∧
    (mkSyncInstancesFrom i kws).map (fun c => c.params) =
      kws.map (fun kw => (gen_customized_ip 0 kw).params) := by
  induction kws generalizing i with
  | nil => simp [mkSyncInstancesFrom]
  | cons kw kws ih =>
    obtain ⟨ih1, ih2⟩ := ih (i + 1)
    refine ⟨?_, ?_⟩
    · simp [mkSyncInstancesFrom, List.range', ih1, NitroMuAcmSync.mk]
      rfl
    · simp [mkSyncInstancesFrom, ih2, NitroMuAcmSync.mk]
      rw [gen_customized_ip_eq, gen_customized_ip_eq]

/-- The power-on state satisfies the invariant. -/
lemma xinv_start (L : List Beat) : XInv L (xclkStart L) := by
  refine Or.inl ⟨⟨rfl, rfl⟩, ?_, ?_⟩ <;> simp [vldOk, relN, xclkStart]

/-- One contract-respecting event preserves the invariant. -/
lemma xinv_step (L : List Beat) (s : XClkSys) (c : XClkCmd)
    (hInv : XInv L s) (hOk : xclkCmdOk s c = true) : XInv L (xclkStepSys s c) := by
  rcases hInv with h | h | h | h | h | h | h | h | h | h | h | h | h
  -- Phase A0: idle, all registers low.
  · obtain ⟨⟨hxin, hxout⟩, hv, hrel⟩ := h
    cases c with
    | inTick v =>
      cases hvl : s.vld with
      | false =>
        simp only [xclkCmdOk, hvl] at hOk
        have hOk2 : v = false ∨ s.pend ≠ [] := by simpa using hOk
        simp only [XInv]
        rcases hOk2 with hx | hx <;>
          simp_all [phaseRegs, vldOk, relN, relD, xclkStepSys, xclkInStep, xclkOutStep]
      | true =>
        simp only [xclkCmdOk, hvl, hxin] at hOk
        simp only [XInv]
        simp_all [phaseRegs, vldOk, relN, relD, xclkStepSys, xclkInStep, xclkOutStep]
    | outTick r w =>
      simp only [XInv]
      simp_all [phaseRegs, vldOk, relN, relD, xclkStepSys, xclkInStep, xclkOutStep]
  -- Phase A1: idle, last ack-sync stage still draining.
  · obtain ⟨⟨hxin, hxout⟩, hv, hrel⟩ := h
    cases c with
    | inTick v =>
      cases hvl : s.vld with
      | false =>
        simp only [xclkCmdOk, hvl] at hOk
        have hOk2 : v = false ∨ s.pend ≠ [] := by simpa using hOk
        simp only [XInv]
        rcases hOk2 with hx | hx <;>
          simp_all [phaseRegs, vldOk, relN, relD, xclkStepSys, xclkInStep, xclkOutStep]
      | true =>
        simp only [xclkCmdOk, hvl, hxin] at hOk
        simp only [XInv]
        simp_all [phaseRegs, vldOk, relN, relD, xclkStepSys, xclkInStep, xclkOutStep]
    | outTick r w =>
      simp only [XInv]
      simp_all [phaseRegs, vldOk, relN, relD, xclkStepSys, xclkInStep, xclkOutStep]
  -- Phase B: send raised, not yet seen by the consumer domain.
  · obtain ⟨⟨hxin, hxout⟩, hv, hne, hrel⟩ := h
    cases c with
    | inTick v =>
      simp only [xclkCmdOk, hv, hxin] at hOk
      simp only [XInv]
      simp_all [phaseRegs, vldOk, relN, relD, xclkStepSys, xclkInStep, xclkOutStep]
    | outTick r w =>
      simp only [XInv]
      simp_all [phaseRegs, vldOk, relN, relD, xclkStepSys, xclkInStep, xclkOutStep]
  -- Phase C: send seen by the first consumer synchronizer stage.
  · obtain ⟨⟨hxin, hxout⟩, hv, hne, hrel⟩ := h
    cases c with
    | inTick v =>
      simp only [xclkCmdOk, hv, hxin] at hOk
      simp only [XInv]
      simp_all [phaseRegs, vldOk, relN, relD, xclkStepSys, xclkInStep, xclkOutStep]
    | outTick r w =>
      simp only [XInv]
      simp_all [phaseRegs, vldOk, relN, relD, xclkStepSys, xclkInStep, xclkOutStep]
  -- Phase D: out_valid offered; waiting for the consumer.
  · obtain ⟨⟨hxin, hxout⟩, hv, hne, hrel⟩ := h
    cases c with
    | inTick v =>
      simp only [xclkCmdOk, hv, hxin] at hOk
      simp only [XInv]
      simp_all [phaseRegs, vldOk, relN, relD, xclkStepSys, xclkInStep, xclkOutStep]
    | outTick r w =>
      cases hr : r with
      | false =>
        simp only [XInv]
        simp_all [phaseRegs, vldOk, relN, relD, xclkStepSys, xclkInStep, xclkOutStep]
      | true =>
        simp only [xclkCmdOk, hv, XClkSys.presented] at hOk
        rcases hpend : s.pend with _ | ⟨b, rest⟩
        · exact absurd hpend hne
        · simp only [XInv]
          simp_all [phaseRegs, vldOk, relN, relD, xclkStepSys, xclkInStep, xclkOutStep]
  -- Phase E: beat delivered, acknowledgment raised in the consumer domain.
  · obtain ⟨⟨hxin, hxout⟩, hv, hrel⟩ := h
    obtain ⟨hne, heq⟩ : s.pend ≠ [] ∧ s.outd ++ s.pend.tail = L := hrel
    cases c with
    | inTick v =>
      simp only [xclkCmdOk, hv, hxin] at hOk
      simp only [XInv]
      simp_all [phaseRegs, vldOk, relN, relD, xclkStepSys, xclkInStep, xclkOutStep]
    | outTick r w =>
      simp only [XInv]
      simp_all [phaseRegs, vldOk, relN, relD, xclkStepSys, xclkInStep, xclkOutStep]
  -- Phase F: acknowledgment sampled by the first producer synchronizer stage.
  · obtain ⟨⟨hxin, hxout⟩, hv, hrel⟩ := h
    obtain ⟨hne, heq⟩ : s.pend ≠ [] ∧ s.outd ++ s.pend.tail = L := hrel
    cases c with
    | inTick v =>
      simp only [xclkCmdOk, hv, hxin] at hOk
      simp only [XInv]
      simp_all [phaseRegs, vldOk, relN, relD, xclkStepSys, xclkInStep, xclkOutStep]
    | outTick r w =>
      simp only [XInv]
      simp_all [phaseRegs, vldOk, relN, relD, xclkStepSys, xclkInStep, xclkOutStep]
  -- Phase Ga: producer ready pulse, consumer sync regs still high.
  · obtain ⟨⟨hxin, hxout⟩, hv, hrel⟩ := h
    obtain ⟨hne, heq⟩ : s.pend ≠ [] ∧ s.outd ++ s.pend.tail = L := hrel
    cases c with
    | inTick v =>
      simp only [xclkCmdOk, hv, hxin] at hOk
      have hOk2 : v = false ∨ s.pend.tail ≠ [] := by simpa using hOk
      simp only [XInv]
      rcases hOk2 with hx | hx <;>
        simp_all [phaseRegs, vldOk, relN, relD, xclkStepSys, xclkInStep, xclkOutStep]
    | outTick r w =>
      simp only [XInv]
      simp_all [phaseRegs, vldOk, relN, relD, xclkStepSys, xclkInStep, xclkOutStep]
  -- Phase Gb: ready pulse, send fall seen by first consumer stage.
  · obtain ⟨⟨hxin, hxout⟩, hv, hrel⟩ := h
    obtain ⟨hne, heq⟩ : s.pend ≠ [] ∧ s.outd ++ s.pend.tail = L := hrel
    cases c with
    | inTick v =>
      simp only [xclkCmdOk, hv, hxin] at hOk
      have hOk2 : v = false ∨ s.pend.tail ≠ [] := by simpa using hOk
      simp only [XInv]
      rcases hOk2 with hx | hx <;>
        simp_all [phaseRegs, vldOk, relN, relD, xclkStepSys, xclkInStep, xclkOutStep]
    | outTick r w =>
      simp only [XInv]
      simp_all [phaseRegs, vldOk, relN, relD, xclkStepSys, xclkInStep, xclkOutStep]
  -- Phase Gc: ready pulse, consumer side fully drained.
  · obtain ⟨⟨hxin, hxout⟩, hv, hrel⟩ := h
    obtain ⟨hne, heq⟩ : s.pend ≠ [] ∧ s.outd ++ s.pend.tail = L := hrel
    cases c with
    | inTick v =>
      simp only [xclkCmdOk, hv, hxin] at hOk
      have hOk2 : v = false ∨ s.pend.tail ≠ [] := by simpa using hOk
      simp only [XInv]
      rcases hOk2 with hx | hx <;>
        simp_all [phaseRegs, vldOk, relN, relD, xclkStepSys, xclkInStep, xclkOutStep]
    | outTick r w =>
      simp only [XInv]
      simp_all [phaseRegs, vldOk, relN, relD, xclkStepSys, xclkInStep, xclkOutStep]
  -- Phase Ha: input transfer done, ack still high on both sides.
  · obtain ⟨⟨hxin, hxout⟩, hv, hrel⟩ := h
    cases c with
    | inTick v =>
      cases hvl : s.vld with
      | false =>
        simp only [xclkCmdOk, hvl] at hOk
        have hOk2 : v = false ∨ s.pend ≠ [] := by simpa using hOk
        simp only [XInv]
        rcases hOk2 with hx | hx <;>
          simp_all [phaseRegs, vldOk, relN, relD, xclkStepSys, xclkInStep, xclkOutStep]
      | true =>
        simp only [xclkCmdOk, hvl, hxin] at hOk
        simp only [XInv]
        simp_all [phaseRegs, vldOk, relN, relD, xclkStepSys, xclkInStep, xclkOutStep]
    | outTick r w =>
      simp only [XInv]
      simp_all [phaseRegs, vldOk, relN, relD, xclkStepSys, xclkInStep, xclkOutStep]
  -- Phase Hb: ack falling through the consumer side.
  · obtain ⟨⟨hxin, hxout⟩, hv, hrel⟩ := h
    cases c with
    | inTick v =>
      cases hvl : s.vld with
      | false =>
        simp only [xclkCmdOk, hvl] at hOk
        have hOk2 : v = false ∨ s.pend ≠ [] := by simpa using hOk
        simp only [XInv]
        rcases hOk2 with hx | hx <;>
          simp_all [phaseRegs, vldOk, relN, relD, xclkStepSys, xclkInStep, xclkOutStep]
      | true =>
        simp only [xclkCmdOk, hvl, hxin] at hOk
        simp only [XInv]
        simp_all [phaseRegs, vldOk, relN, relD, xclkStepSys, xclkInStep, xclkOutStep]
    | outTick r w =>
      simp only [XInv]
      simp_all [phaseRegs, vldOk, relN, relD, xclkStepSys, xclkInStep, xclkOutStep]
  -- Phase Hc: ack low on the consumer side, producer sync still draining.
  · obtain ⟨⟨hxin, hxout⟩, hv, hrel⟩ := h
    cases c with
    | inTick v =>
      cases hvl : s.vld with
      | false =>
        simp only [xclkCmdOk, hvl] at hOk
        have hOk2 : v = false ∨ s.pend ≠ [] := by simpa using hOk
        simp only [XInv]
        rcases hOk2 with hx | hx <;>
          simp_all [phaseRegs, vldOk, relN, relD, xclkStepSys, xclkInStep, xclkOutStep]
      | true =>
        simp only [xclkCmdOk, hvl, hxin] at hOk
        simp only [XInv]
        simp_all [phaseRegs, vldOk, relN, relD, xclkStepSys, xclkInStep, xclkOutStep]
    | outTick r w =>
      simp only [XInv]
      simp_all [phaseRegs, vldOk, relN, relD, xclkStepSys, xclkInStep, xclkOutStep]

/-- The invariant holds after any contract-respecting schedule. -/
lemma xinv_run (L : List Beat) (cs : List XClkCmd) :
    ∀ (s : XClkSys), XInv L s → xclkOkRun s cs = true → XInv L (xclkRun s cs) := by
  induction cs with
  | nil => exact fun s h _ => h
  | cons c cs ih =>
    intro s h hok
    simp only [xclkOkRun, Bool.and_eq_true] at hok
    exact ih _ (xinv_step L s c h hok.1) hok.2

/-- List-level consequences of the invariant: the delivered beats are an
initial segment of the driven sequence, the delivered and pending beats
partition it with at most a one-beat overlap, and a drained system has
delivered everything. -/
lemma xinv_lists (L : List Beat) (s : XClkSys) (h : XInv L s) :
    (∃ k, s.outd = L.take k) ∧
    (s.outd ++ s.pend = L ∨ (s.pend ≠ [] ∧ s.outd ++ s.pend.tail = L)) ∧
    (s.pend = [] → s.outd = L) ∧
    L.length ≤ s.outd.length + s.pend.length ∧
    s.outd.length + s.pend.length ≤ L.length + 1 := by
  have hd : s.outd ++ s.pend = L ∨ (s.pend ≠ [] ∧ s.outd ++ s.pend.tail = L) := by
    rcases h with ⟨-, -, h⟩ | ⟨-, -, h⟩ | ⟨-, -, -, h⟩ | ⟨-, -, -, h⟩ | ⟨-, -, -, h⟩ |
      ⟨-, -, h⟩ | ⟨-, -, h⟩ | ⟨-, -, h⟩ | ⟨-, -, h⟩ | ⟨-, -, h⟩ |
      ⟨-, -, h⟩ | ⟨-, -, h⟩ | ⟨-, -, h⟩ <;>
      first
        | exact Or.inl h
        | exact Or.inr h
  refine ⟨?_, hd, ?_, ?_, ?_⟩
  · rcases hd with he | ⟨hne, he⟩ <;>
      exact ⟨s.outd.length, by rw [← he]; exact (List.take_left ..).symm⟩
  · rcases hd with he | ⟨hne, he⟩
    · intro hp
      simpa [hp] using he
    · intro hp
      exact absurd hp hne
  · rcases hd with he | ⟨hne, he⟩
    · have := congrArg List.length he
      simp only [List.length_append] at this
      omega
    · obtain ⟨b, rest, hb⟩ : ∃ b rest, s.pend = b :: rest := by
        cases hp : s.pend with
        | nil => exact absurd hp hne
        | cons b rest => exact ⟨b, rest, rfl⟩
      have := congrArg List.length he
      simp only [List.length_append, hb, List.tail_cons, List.length_cons] at this ⊢
      omega
  · rcases hd with he | ⟨hne, he⟩
    · have := congrArg List.length he
      simp only [List.length_append] at this
      omega
    · obtain ⟨b, rest, hb⟩ : ∃ b rest, s.pend = b :: rest := by
        cases hp : s.pend with
        | nil => exact absurd hp hne
        | cons b rest => exact ⟨b, rest, rfl⟩
      have := congrArg List.length he
      simp only [List.length_append, hb, List.tail_cons, List.length_cons] at this ⊢
      omega

/-- One FIFO cycle preserves the write/read history bookkeeping. -/
lemma fifoStep_conserves (depth : Nat) (s : FifoSt) (op : FifoOp)
    (h : s.pushed = s.popped ++ s.q) :
    (fifoStep depth s op).pushed =
      (fifoStep depth s op).popped ++ (fifoStep depth s op).q := by
  rcases hq : s.q with _ | ⟨a, t⟩ <;>
    simp_all [fifoStep] <;>
    split_ifs <;>
    simp_all [List.append_assoc]

/-- Every word read from the FIFO was written earlier, in order: the written
history is the read history followed by the current contents. -/
lemma fifoRun_conserves (depth : Nat) (ops : List FifoOp) :
    (fifoRun depth ops).pushed = (fifoRun depth ops).popped ++ (fifoRun depth ops).q := by
  have key : ∀ (l : List FifoOp) (s : FifoSt), s.pushed = s.popped ++ s.q →
      (l.foldl (fifoStep depth) s).pushed =
        (l.foldl (fifoStep depth) s).popped ++ (l.foldl (fifoStep depth) s).q := by
    intro l
    induction l with
    | nil => exact fun s hs => hs
    | cons op l ih => exact fun s hs => ih _ (fifoStep_conserves depth s op hs)
  simpa [fifoRun] using key ops ⟨[], [], []⟩ rfl

/-- Packing then unpacking a beat through the 9-bit FIFO word is lossless. -/
lemma fifoPack_unpack (d : Nat) (l : Bool) (h : d < 256) :
    fifoUnpackData (fifoPack d l) = d ∧ fifoUnpackLast (fifoPack d l) = l := by
  have hm : d % 256 = d := Nat.mod_eq_of_lt h
  cases l <;>
    simp [fifoPack, fifoUnpackData, fifoUnpackLast, hm] <;>
    omega

/-- Unpacking a packed beat list recovers it exactly. -/
lemma beatsOfWords_pack (bs : List Beat) (h : ∀ b ∈ bs, b.1 < 256) :
    beatsOfWords (bs.map (fun b => fifoPack b.1 b.2)) = bs := by
  induction bs with
  | nil => rfl
  | cons b t ih =>
    have hb : b.1 < 256 := h b (List.mem_cons_self b t)
    have ht : ∀ x ∈ t, x.1 < 256 := fun x hx => h x (List.mem_cons_of_mem b hx)
    obtain ⟨h1, h2⟩ := fifoPack_unpack b.1 b.2 hb
    simp only [List.map_cons, beatsOfWords] at ih ⊢
    simp [h1, h2, ih ht]

/-! ## Claims -/

/-- C2: starting from 0 with its clock running and its reset released, the
8-bit power-on-reset counter increments by 1 each cycle while its top bit is
0, the derived reset output (complement of the top bit) is asserted for
exactly the 128 cycles with counter values 0..127 and deasserted for every
later cycle, and the counter saturates at 128 and never wraps. -/
theorem por_reset_exactly_128_cycles (n : Nat) :
    por_count n = min n 128 ∧
    por_rst (por_count n) = decide (n < 128) ∧
    (porTop (por_count n) = 0 → por_count (n + 1) = por_count n + 1) ∧
    (128 ≤ n → por_count n = 128) := by
  have hc := por_count_closed n
  refine ⟨hc, ?_, ?_, ?_⟩
  · rcases Nat.lt_or_ge n 128 with h | h
    · have h1 : por_count n = n := by rw [hc]; omega
      rw [h1]
      unfold por_rst porTop
      simp only [decide_eq_decide]
      omega
    · have h1 : por_count n = 128 := by rw [hc]; omega
      rw [h1]
      unfold por_rst porTop
      simp only [decide_eq_decide]
      omega
  · intro htop
    have hlt : por_count n < 128 := by
      by_contra hge
      have h1 : por_count n = 128 := by rw [hc] at *; omega
      rw [h1] at htop
      simp [porTop] at htop
    show porStep (por_count n) = _
    unfold porStep
    rw [htop]
    omega
  · intro h
    rw [hc]; omega

/-- Witness for C2 at a cycle index past the saturation point. -/
theorem por_reset_exactly_128_cycles_witness :
    por_count 130 = min 130 128 ∧
    por_rst (por_count 130) = decide (130 < 128) ∧
    (porTop (por_count 130) = 0 → por_count 131 = por_count 130 + 1) ∧
    (128 ≤ 130 → por_count 130 = 128) :=
  por_reset_exactly_128_cycles 130

/-- C8: the Bitsy warm-boot trigger is a sticky flag in the free-running
domain — deasserted while no bootloader-request pulse has occurred, asserted
from the cycle after the first pulse onwards, never deasserting again — and it
drives the `SB_WARMBOOT` primitive's `BOOT` input with `S1 = 0`, `S0 = 1`. -/
theorem warmboot_sticky_flag (req : Nat → Bool) (n : Nat) :
    (reboot req n = true ↔ ∃ k, k < n ∧ req k = true) ∧
    (req n = true → reboot req (n + 1) = true) ∧
    (reboot req n = true → reboot req (n + 1) = true) ∧
    warmbootInst req n = ⟨0, 1, reboot req n⟩ := by
  refine ⟨reboot_iff req n, ?_, ?_, rfl⟩
  · intro h
    unfold reboot
    rw [h]
    simp
  · intro h
    unfold reboot
    rw [h]
    simp

/-- Witness for C8: a pulse in cycle 2 observed at cycle 5. -/
theorem warmboot_sticky_flag_witness :
    (reboot (fun k => decide (k = 2)) 5 = true ↔
      ∃ k, k < 5 ∧ decide (k = 2) = true) ∧
    (decide (5 = 2) = true → reboot (fun k => decide (k = 2)) 6 = true) ∧
    (reboot (fun k => decide (k = 2)) 5 = true →
      reboot (fun k => decide (k = 2)) 6 = true) ∧
    warmbootInst (fun k => decide (k = 2)) 5 = ⟨0, 1, reboot (fun k => decide (k = 2)) 5⟩ :=
  warmboot_sticky_flag (fun k => decide (k = 2)) 5

/-- C5: for every data byte and last flag, the 9-bit FIFO word written by the
buffered wrapper has its low 8 bits equal to the data byte and its bit 8 equal
to the last flag, and the read-side wiring recovers exactly the original pair;
the same packing functions are wired on the ingress and the egress FIFO. -/
theorem fifo_word_packing (d : Nat) (l : Bool) (h : d < 256) :
    fifoPack d l % 256 = d ∧
    fifoPack d l / 256 % 2 = (if l then 1 else 0) ∧
    fifoUnpackData (fifoPack d l) = d ∧
    fifoUnpackLast (fifoPack d l) = l ∧
    fifoPack d l < 512 := by
  have hm : d % 256 = d := Nat.mod_eq_of_lt h
  cases l <;>
    simp [fifoPack, fifoUnpackData, fifoUnpackLast, hm] <;>
    omega

/-- Witness for C5 at byte 171 with the last flag set. -/
theorem fifo_word_packing_witness :
    fifoPack 171 true % 256 = 171 ∧
    fifoPack 171 true / 256 % 2 = (if true then 1 else 0) ∧
    fifoUnpackData (fifoPack 171 true) = 171 ∧
    fifoUnpackLast (fifoPack 171 true) = true ∧
    fifoPack 171 true < 512 :=
  fifo_word_packing 171 true (by decide)

/-- C6: `NitroMuAcmBuffered.__init__` takes the pads, a `sync` flag defaulting
to `False`, a `fifo_depth` defaulting to 4, and the customization keywords;
when `sync` is true it builds exactly one synchronous inner wrapper, otherwise
exactly one asynchronous inner wrapper, forwarding the keywords unchanged. -/
theorem buffered_constructor (fresh : Nat) (kw : KwArgs) (d : Nat) :
    NitroMuAcmBuffered.mk fresh kw = NitroMuAcmBuffered.mk fresh kw false 4 ∧
    (NitroMuAcmBuffered.mk fresh kw true d).core =
      InnerCore.syncCore (NitroMuAcmSync.mk fresh kw) ∧
    (NitroMuAcmBuffered.mk fresh kw false d).core =
      InnerCore.asyncCore (NitroMuAcmAsync.mk fresh kw) ∧
    (NitroMuAcmBuffered.mk fresh kw true d).fifo_depth = d ∧
    (NitroMuAcmBuffered.mk fresh kw false d).fifo_depth = d ∧
    ∀ (sync : Bool),
      ((NitroMuAcmBuffered.mk fresh kw sync d).core).innerSync = NitroMuAcmSync.mk fresh kw := by
  refine ⟨rfl, rfl, rfl, rfl, rfl, ?_⟩
  intro sync
  cases sync <;> rfl

/-- C7: each of the six customization operations is applied iff its parameter
is supplied (non-`None` for the five values, truthy for `no_dfu_rt`); an
omitted parameter leaves its descriptor field at the pre-patch default; and
every instance of a batch writes its own distinct temporary file, its patching
determined by its own keyword set alone. -/
theorem customization_iff_supplied (fresh : Nat) (kw : KwArgs) (kws : List KwArgs) :
    (kwGet kw "vid" = PyVal.pynone → (gen_customized_ip fresh kw).params.vid = none) ∧
    (kwGet kw "vid" ≠ PyVal.pynone →
      (gen_customized_ip fresh kw).params.vid = some (kwGet kw "vid")) ∧
    (kwGet kw "pid" = PyVal.pynone → (gen_customized_ip fresh kw).params.pid = none) ∧
    (kwGet kw "pid" ≠ PyVal.pynone →
      (gen_customized_ip fresh kw).params.pid = some (kwGet kw "pid")) ∧
    (kwGet kw "vendor" = PyVal.pynone → (gen_customized_ip fresh kw).params.vendor = none) ∧
    (kwGet kw "vendor" ≠ PyVal.pynone →
      (gen_customized_ip fresh kw).params.vendor = some (kwGet kw "vendor")) ∧
    (kwGet kw "product" = PyVal.pynone → (gen_customized_ip fresh kw).params.product = none) ∧
    (kwGet kw "product" ≠ PyVal.pynone →
      (gen_customized_ip fresh kw).params.product = some (kwGet kw "product")) ∧
    (kwGet kw "serial" = PyVal.pynone → (gen_customized_ip fresh kw).params.serial = none) ∧
    (kwGet kw "serial" ≠ PyVal.pynone →
      (gen_customized_ip fresh kw).params.serial = some (kwGet kw "serial")) ∧
    (gen_customized_ip fresh kw).params.dfu_rt_disabled = pyTruthy (kwGet kw "no_dfu_rt") ∧
    (mkSyncInstances kws).map (fun c => c.ip_file) = List.range' 0 kws.length ∧
    ((mkSyncInstances kws).map (fun c => c.ip_file)).Nodup ∧
    (mkSyncInstances kws).map (fun c => c.params) =
      kws.map (fun kwi => (gen_customized_ip 0 kwi).params) := by
  obtain ⟨hfiles, hparams⟩ := mkSyncInstancesFrom_spec kws 0
  unfold mkSyncInstances
  rw [gen_customized_ip_eq]
  refine ⟨?_, ?_, ?_, ?_, ?_, ?_, ?_, ?_, ?_, ?_, rfl, hfiles, ?_, hparams⟩ <;>
    first
      | (intro h; simp [h])
      | simp [hfiles, List.nodup_range']

/-- Witness for C7: one supplied and several omitted parameters, two-instance
batch. -/
theorem customization_iff_supplied_witness :
    (kwGet [("vid", PyVal.pyint 6)] "vid" = PyVal.pynone →
      (gen_customized_ip 7 [("vid", PyVal.pyint 6)]).params.vid = none) ∧
    (kwGet [("vid", PyVal.pyint 6)] "vid" ≠ PyVal.pynone →
      (gen_customized_ip 7 [("vid", PyVal.pyint 6)]).params.vid =
        some (kwGet [("vid", PyVal.pyint 6)] "vid")) ∧
    (kwGet [("vid", PyVal.pyint 6)] "pid" = PyVal.pynone →
      (gen_customized_ip 7 [("vid", PyVal.pyint 6)]).params.pid = none) ∧
    (kwGet [("vid", PyVal.pyint 6)] "pid" ≠ PyVal.pynone →
      (gen_customized_ip 7 [("vid", PyVal.pyint 6)]).params.pid =
        some (kwGet [("vid", PyVal.pyint 6)] "pid")) ∧
    (kwGet [("vid", PyVal.pyint 6)] "vendor" = PyVal.pynone →
      (gen_customized_ip 7 [("vid", PyVal.pyint 6)]).params.vendor = none) ∧
    (kwGet [("vid", PyVal.pyint 6)] "vendor" ≠ PyVal.pynone →
      (gen_customized_ip 7 [("vid", PyVal.pyint 6)]).params.vendor =
        some (kwGet [("vid", PyVal.pyint 6)] "vendor")) ∧
    (kwGet [("vid", PyVal.pyint 6)] "product" = PyVal.pynone →
      (gen_customized_ip 7 [("vid", PyVal.pyint 6)]).params.product = none) ∧
    (kwGet [("vid", PyVal.pyint 6)] "product" ≠ PyVal.pynone →
      (gen_customized_ip 7 [("vid", PyVal.pyint 6)]).params.product =
        some (kwGet [("vid", PyVal.pyint 6)] "product")) ∧
    (kwGet [("vid", PyVal.pyint 6)] "serial" = PyVal.pynone →
      (gen_customized_ip 7 [("vid", PyVal.pyint 6)]).params.serial = none) ∧
    (kwGet [("vid", PyVal.pyint 6)] "serial" ≠ PyVal.pynone →
      (gen_customized_ip 7 [("vid", PyVal.pyint 6)]).params.serial =
        some (kwGet [("vid", PyVal.pyint 6)] "serial")) ∧
    (gen_customized_ip 7 [("vid", PyVal.pyint 6)]).params.dfu_rt_disabled =
      pyTruthy (kwGet [("vid", PyVal.pyint 6)] "no_dfu_rt") ∧
    (mkSyncInstances [[], [("product", PyVal.pystr "x")]]).map (fun c => c.ip_file) =
      List.range' 0 (List.length [[], [("product", PyVal.pystr "x")]]) ∧
    ((mkSyncInstances [[], [("product", PyVal.pystr "x")]]).map (fun c => c.ip_file)).Nodup ∧
    (mkSyncInstances [[], [("product", PyVal.pystr "x")]]).map (fun c => c.params) =
      ([[], [("product", PyVal.pystr "x")]] : List KwArgs).map
        (fun kwi => (gen_customized_ip 0 kwi).params) :=
  customization_iff_supplied 7 [("vid", PyVal.pyint 6)] [[], [("product", PyVal.pystr "x")]]

/-- C9: the wrapper constructors validate no keyword names — a keyword outside
the six recognized ones is silently ignored, with no error and no patching
effect, and the patched result depends only on the recognized entries. -/
theorem unrecognized_kwargs_ignored (fresh : Nat) (kw kw2 : KwArgs) (k : String) (v : PyVal) :
    ((∀ key ∈ recognizedKeys, kwGet kw key = kwGet kw2 key) →
      (gen_customized_ip fresh kw).params = (gen_customized_ip fresh kw2).params) ∧
    (k ∉ recognizedKeys → gen_customized_ip fresh ((k, v) :: kw) = gen_customized_ip fresh kw) := by
  constructor
  · intro h
    have h1 := h "vid" (by simp [recognizedKeys])
    have h2 := h "pid" (by simp [recognizedKeys])
    have h3 := h "vendor" (by simp [recognizedKeys])
    have h4 := h "product" (by simp [recognizedKeys])
    have h5 := h "serial" (by simp [recognizedKeys])
    have h6 := h "no_dfu_rt" (by simp [recognizedKeys])
    rw [gen_customized_ip_eq, gen_customized_ip_eq, h1, h2, h3, h4, h5, h6]
  · intro hk
    simp only [recognizedKeys, List.mem_cons, List.mem_singleton, not_or] at hk
    obtain ⟨h1, h2, h3, h4, h5, h6, -⟩ := hk
    rw [gen_customized_ip_eq, gen_customized_ip_eq,
      kwGet_cons_ne k "vid" v kw h1, kwGet_cons_ne k "pid" v kw h2,
      kwGet_cons_ne k "vendor" v kw h3, kwGet_cons_ne k "product" v kw h4,
      kwGet_cons_ne k "serial" v kw h5, kwGet_cons_ne k "no_dfu_rt" v kw h6]

/-- Witness for C9: a misspelled customization keyword is ignored. -/
theorem unrecognized_kwargs_ignored_witness :
    ((∀ key ∈ recognizedKeys, kwGet [] key = kwGet [] key) →
      (gen_customized_ip 3 []).params = (gen_customized_ip 3 []).params) ∧
    ("prodcut" ∉ recognizedKeys →
      gen_customized_ip 3 [("prodcut", PyVal.pystr "oops")] = gen_customized_ip 3 []) :=
  unrecognized_kwargs_ignored 3 [] [] "prodcut" (PyVal.pystr "oops")

/-- C10: constructing a synchronous wrapper always performs the preparation —
loading the patcher module, reading the core source and writing a named
temporary file — even with zero customization parameters, in which case the
written source is the unpatched default; the temporary-file handle is retained
on the instance. -/
theorem sync_prep_always_runs (fresh : Nat) (kw : KwArgs) :
    (NitroMuAcmSync.mk fresh kw).prep =
      [PrepEffect.loadPatcherModule, PrepEffect.loadSource, PrepEffect.saveTemp fresh] ∧
    (NitroMuAcmSync.mk fresh kw).ip_file = fresh ∧
    (NitroMuAcmSync.mk fresh []).prep =
      [PrepEffect.loadPatcherModule, PrepEffect.loadSource, PrepEffect.saveTemp fresh] ∧
    (NitroMuAcmSync.mk fresh []).params = MuAcmPatcher.load :=
  ⟨rfl, rfl, rfl, rfl⟩

/-- C1 counterexample: the iCEBreaker reference design's buffered-wrapper
instantiation passes `fifo_depth=256` explicitly, so its FIFO depth is not the
library default of 4 as the claim states. -/
theorem icebreaker_uses_depth_256_not_4 :
    (icebreakerMuacm 0).fifo_depth = 256 ∧ (icebreakerMuacm 0).fifo_depth ≠ 4 :=
  ⟨rfl, by decide⟩

/-- C1 amended: the iCEBreaker reference design instantiates its buffered core
wrapper with an explicit FIFO depth of 256 (not the library default of 4) and
supplies no product-identification string — indeed no customization keyword at
all — so the vendored core's default descriptor strings are used. -/
theorem icebreaker_instantiation (fresh : Nat) :
    (icebreakerMuacm fresh).fifo_depth = 256 ∧
    ((icebreakerMuacm fresh).core).innerSync.params.product = none ∧
    ((icebreakerMuacm fresh).core).innerSync.params = MuAcmPatcher.load :=
  ⟨rfl, rfl, rfl⟩

/-- C4: the cross-clock adapter's registered handshake — the producer-domain
send flip-flop sets when `in_valid` is high and `in_ready` not yet high,
clears when the synchronized acknowledgment is observed, and otherwise holds;
`in_ready` is a one-cycle pulse on the rising edge of the synchronized
acknowledgment (current sample high, previous sample low); the consumer-side
`out_valid` sets on a rising edge of the synchronized send flag, holds until
`out_valid & out_ready`, then clears unless a new edge is already pending;
data and last are combinationally forwarded. -/
theorem xclk_handshake_protocol (s : XClkInSt) (o : XClkOutSt) (v a snd r : Bool)
    (d : Nat) (l : Bool) :
    (s.ack0 = false → v = true → s.rdy = false → (xclkInStep s v a).send = true) ∧
    (s.ack0 = true → (xclkInStep s v a).send = false) ∧
    (s.ack0 = false → (v = false ∨ s.rdy = true) → (xclkInStep s v a).send = s.send) ∧
    (xclkInStep s v a).rdy = (s.ack0 && !s.ack1) ∧
    (xclkInStep s v a).ack0 = a ∧
    (xclkInStep s v a).ack1 = s.ack0 ∧
    (o.ss0 = true → o.ss1 = false → (xclkOutStep o snd r).oval = true) ∧
    (o.oval = true → r = false → (xclkOutStep o snd r).oval = true) ∧
    (o.oval = true → r = true → ¬(o.ss0 = true ∧ o.ss1 = false) →
      (xclkOutStep o snd r).oval = false) ∧
    (o.oval = false → ¬(o.ss0 = true ∧ o.ss1 = false) →
      (xclkOutStep o snd r).oval = false) ∧
    (xclkOutStep o snd r).ss0 = snd ∧
    (xclkOutStep o snd r).ss1 = o.ss0 ∧
    (xclkOutStep o snd r).ack = ((o.ack && o.ss0) || (o.oval && r)) ∧
    xclkOutData d = d ∧
    xclkOutLast l = l := by
  obtain ⟨se, a0, a1, rd⟩ := s
  obtain ⟨s0, s1, ov, ak⟩ := o
  refine ⟨?_, ?_, ?_, rfl, rfl, rfl, ?_, ?_, ?_, ?_, rfl, rfl, rfl, rfl, rfl⟩ <;>
    simp only [xclkInStep, xclkOutStep] <;>
    intros <;>
    simp_all <;>
    cases v <;> simp_all

/-- Witness for C4 at concrete register values. -/
theorem xclk_handshake_protocol_witness :
    let s : XClkInSt := ⟨false, false, false, false⟩
    let o : XClkOutSt := ⟨true, false, false, false⟩
    (s.ack0 = false → true = true → s.rdy = false → (xclkInStep s true false).send = true) ∧
    (s.ack0 = true → (xclkInStep s true false).send = false) ∧
    (s.ack0 = false → (true = false ∨ s.rdy = true) → (xclkInStep s true false).send = s.send) ∧
    (xclkInStep s true false).rdy = (s.ack0 && !s.ack1) ∧
    (xclkInStep s true false).ack0 = false ∧
    (xclkInStep s true false).ack1 = s.ack0 ∧
    (o.ss0 = true → o.ss1 = false → (xclkOutStep o false true).oval = true) ∧
    (o.oval = true → true = false → (xclkOutStep o false true).oval = true) ∧
    (o.oval = true → true = true → ¬(o.ss0 = true ∧ o.ss1 = false) →
      (xclkOutStep o false true).oval = false) ∧
    (o.oval = false → ¬(o.ss0 = true ∧ o.ss1 = false) →
      (xclkOutStep o false true).oval = false) ∧
    (xclkOutStep o false true).ss0 = false ∧
    (xclkOutStep o false true).ss1 = o.ss0 ∧
    (xclkOutStep o false true).ack = ((o.ack && o.ss0) || (o.oval && true)) ∧
    xclkOutData 99 = 99 ∧
    xclkOutLast true = true :=
  xclk_handshake_protocol ⟨false, false, false, false⟩ ⟨true, false, false, false⟩
    true false false true 99 true

/-- C3: for every finite sequence of `(data, last)` beats driven into the
cross-clock adapter under arbitrary per-cycle stalling of valid and ready that
respects the handshake contract, the beats delivered at the output interface
are exactly an initial segment of the driven sequence — none dropped,
duplicated or reordered — with at most one beat in flight across the domain
boundary (the delivered and pending beats cover the sequence with overlap at
most one), and a drained system has delivered the whole sequence; the same
conservation holds through the buffered wrapper's ingress and egress FIFO
paths, whose 9-bit words carry `(data, last)` beats losslessly. -/
theorem xclk_stream_conservation (L : List Beat) (cs : List XClkCmd)
    (h : xclkOkRun (xclkStart L) cs = true) :
    ((∃ k, (xclkRun (xclkStart L) cs).outd = L.take k) ∧
      ((xclkRun (xclkStart L) cs).outd ++ (xclkRun (xclkStart L) cs).pend = L ∨
        ((xclkRun (xclkStart L) cs).pend ≠ [] ∧
          (xclkRun (xclkStart L) cs).outd ++ ((xclkRun (xclkStart L) cs).pend).tail = L)) ∧
      ((xclkRun (xclkStart L) cs).pend = [] → (xclkRun (xclkStart L) cs).outd = L) ∧
      L.length ≤ ((xclkRun (xclkStart L) cs).outd).length +
        ((xclkRun (xclkStart L) cs).pend).length ∧
      ((xclkRun (xclkStart L) cs).outd).length + ((xclkRun (xclkStart L) cs).pend).length ≤
        L.length + 1) ∧
    (∀ (depth : Nat) (ops : List FifoOp),
      (fifoRun depth ops).pushed = (fifoRun depth ops).popped ++ (fifoRun depth ops).q ∧
      beatsOfWords ((fifoRun depth ops).popped) ++ beatsOfWords ((fifoRun depth ops).q) =
        beatsOfWords ((fifoRun depth ops).pushed)) ∧
    (∀ (bs : List Beat), (∀ b ∈ bs, b.1 < 256) →
      beatsOfWords (bs.map (fun b => fifoPack b.1 b.2)) = bs) := by
  refine ⟨xinv_lists L _ (xinv_run L cs _ (xinv_start L) h), fun depth ops => ⟨?_, ?_⟩,
    beatsOfWords_pack⟩
  · exact fifoRun_conserves depth ops
  · simp only [beatsOfWords, ← List.map_append]
    exact congrArg _ (fifoRun_conserves depth ops).symm

/-- Witness for C3: the one-beat demonstration schedule delivers its beat. -/
theorem xclk_stream_conservation_witness :
    xclkOkRun (xclkStart xclkDemoBeats) xclkDemoCmds = true ∧
    (((∃ k, (xclkRun (xclkStart xclkDemoBeats) xclkDemoCmds).outd = xclkDemoBeats.take k) ∧
      ((xclkRun (xclkStart xclkDemoBeats) xclkDemoCmds).outd ++
          (xclkRun (xclkStart xclkDemoBeats) xclkDemoCmds).pend = xclkDemoBeats ∨
        ((xclkRun (xclkStart xclkDemoBeats) xclkDemoCmds).pend ≠ [] ∧
          (xclkRun (xclkStart xclkDemoBeats) xclkDemoCmds).outd ++
            ((xclkRun (xclkStart xclkDemoBeats) xclkDemoCmds).pend).tail = xclkDemoBeats)) ∧
      ((xclkRun (xclkStart xclkDemoBeats) xclkDemoCmds).pend = [] →
        (xclkRun (xclkStart xclkDemoBeats) xclkDemoCmds).outd = xclkDemoBeats) ∧
      xclkDemoBeats.length ≤ ((xclkRun (xclkStart xclkDemoBeats) xclkDemoCmds).outd).length +
        ((xclkRun (xclkStart xclkDemoBeats) xclkDemoCmds).pend).length ∧
      ((xclkRun (xclkStart xclkDemoBeats) xclkDemoCmds).outd).length +
        ((xclkRun (xclkStart xclkDemoBeats) xclkDemoCmds).pend).length ≤
        xclkDemoBeats.length + 1) ∧
    (∀ (depth : Nat) (ops : List FifoOp),
      (fifoRun depth ops).pushed = (fifoRun depth ops).popped ++ (fifoRun depth ops).q ∧
      beatsOfWords ((fifoRun depth ops).popped) ++ beatsOfWords ((fifoRun depth ops).q) =
        beatsOfWords ((fifoRun depth ops).pushed)) ∧
    (∀ (bs : List Beat), (∀ b ∈ bs, b.1 < 256) →
      beatsOfWords (bs.map (fun b => fifoPack b.1 b.2)) = bs)) :=
  ⟨by decide, xclk_stream_conservation xclkDemoBeats xclkDemoCmds (by decide)⟩

end No2Amaranth
